import Mathlib

/-!
Verification development for the annotation-overlay engine of the
legal-agent-web repository.

The embedding below follows `src/components/document-viewer.tsx`
(`processContent`, the `onClick` resolver) and `src/lib/api.ts`
(the clause-type encoding converters).  Text is modelled as `List Char`
(JS strings); JS `substring` with in-range arguments is `List.take` /
`List.drop` (both clamp, exactly as `substring` does); JS numbers used
as character offsets are `Nat` (the code only ever subtracts a smaller
offset from a larger one on the paths where the difference is used, and
where it can go negative the JS code's guard and the truncated `Nat`
subtraction take the same branch - noted at each spot).

The DOM is modelled by the part of it that `processContent` can observe
and mutate: the ordered list of elements matched by
`querySelectorAll("span[data-start][data-end]")`.  A replacement element
is `cloneNode(false)` of the original, so it keeps all attributes
(including `data-start` / `data-end`) and gets fresh children; it is
therefore matched again by the per-annotation re-query, which is why the
element list is simply updated in place.  `textContent` of an element
concatenates the text of its children; the tooltip `div` that Case 1
nests inside the highlight span contributes its text to `textContent`,
which the model records in the `tooltip` field of a highlight.
-/

/-- JS string, modelled as its character list. -/
abbrev Str := List Char

/-- Decimal rendering of a number, as in JS template interpolation. -/
def natToStr (n : Nat) : Str := (Nat.repr n).data

/-- `position: { start, end }` of an annotation (`ClausePosition` in api.ts). -/
structure Position where
  start : Nat
  endPos : Nat
deriving DecidableEq

/-- One annotation record as the viewer receives it: an AI-detected clause
from `document.clauses` or a user annotation from `userAnnotations`
(page.tsx builds the latter with `confidence: 100`, `user: true`). -/
structure Annot where
  type : Str
  selected_text : Str
  reason : Str
  confidence : Nat
  position : Option Position
  user : Bool
deriving DecidableEq

/-- One entry of the clause catalog (`clauses: Record<string, {name, color}>`). -/
structure ClauseInfo where
  name : Str
  color : Str
deriving DecidableEq

/-- The clause catalog, an association list keyed by frontend-format type. -/
abbrev Catalog := List (Str × ClauseInfo)

/-- `Record` lookup: first binding of the key wins. -/
def catLookup : Catalog → Str → Option ClauseInfo
  | [], _ => none
  | (k, v) :: rest, key => if k = key then some v else catLookup rest key

/-- api.ts: `clauseType.replace` of every underscore by a hyphen
(snake_case to kebab-case). -/
def convertClauseTypeToFrontendFormat (t : Str) : Str :=
  t.map (fun c => if c = '_' then '-' else c)

/-- api.ts: `clauseType.replace` of every hyphen by an underscore
(kebab-case to snake_case). -/
def convertClauseTypeToBackendFormat (t : Str) : Str :=
  t.map (fun c => if c = '-' then '_' else c)

/-- The `data-annotation-id` string: `` `${annotation.type}-${annotation.position.start}` ``. -/
def dataAnnotId (type : Str) (startN : Nat) : Str :=
  type ++ '-' :: natToStr startN

/-- A rendered highlight span together with everything `processContent`
attaches to it: `data-clause-type`, `data-annotation-id`, the optional
`data-confidence` attribute, the `user-annotation` class marker, the
clause color, the span's own text child, and (Case 1 only) the text of
the tooltip nested inside the span. -/
structure Highlight where
  clauseType : Str
  annotId : Str
  confidence : Option Str
  userClass : Bool
  color : Str
  text : Str
  tooltip : Option Str
deriving DecidableEq

/-- A child of a (re)built leaf element: a plain text node or a highlight span. -/
inductive Child where
  | textNode (s : Str)
  | highlight (h : Highlight)
deriving DecidableEq

/-- Text contributed by a child to `textContent`; a highlight span
contributes its own text plus the tooltip's text. -/
def Child.textContent : Child → Str
  | .textNode s => s
  | .highlight h => h.text ++ h.tooltip.getD []

/-- One element matched by `span[data-start][data-end]`, with its two
offset attributes, its remaining attributes, and its children. -/
structure Elem where
  dataStart : Nat
  dataEnd : Nat
  otherAttrs : List (Str × Str)
  children : List Child
deriving DecidableEq

/-- `element.textContent`. -/
def Elem.textContent (e : Elem) : Str :=
  (e.children.map Child.textContent).flatten

/-- The three overlap classes of document-viewer.tsx lines 184/248/280. -/
inductive Cls where
  | contained
  | leftOverlap
  | rightOverlap
deriving DecidableEq

/-- The overlap-detection and case-dispatch conditions of the element loop,
verbatim: the outer test of line 182, then the `if`/`else if` chain
(Case 1 line 184, Case 2 line 248, Case 3 line 280), `none` when the
outer test fails or no case matches. -/
def classifyCode (s e elS elE : Nat) : Option Cls :=
  if (elS ≤ s ∧ s < elE) ∨ (elS < e ∧ e ≤ elE) ∨ (s ≤ elS ∧ elE ≤ e) then
    if elS ≤ s ∧ e ≤ elE then some .contained
    else if elS ≤ s ∧ elE ≤ e ∧ s < elE then some .leftOverlap
    else if s ≤ elS ∧ elS < e ∧ e ≤ elE then some .rightOverlap
    else none
  else none

/-- The spec's Contained condition: `elStart ≤ start` and `end ≤ elEnd`. -/
def specContained (s e elS elE : Nat) : Prop := elS ≤ s ∧ e ≤ elE

/-- The spec's LeftOverlap condition: `elStart ≤ start < elEnd ≤ end`. -/
def specLeftOverlap (s e elS elE : Nat) : Prop := elS ≤ s ∧ s < elE ∧ elE ≤ e

/-- The spec's RightOverlap condition: `start ≤ elStart < end ≤ elEnd`. -/
def specRightOverlap (s e elS elE : Nat) : Prop := s ≤ elS ∧ elS < e ∧ e ≤ elE

/-- Nonempty intersection of `[s, e)` and `[elS, elE)`. -/
def intersects (s e elS elE : Nat) : Prop := s < elE ∧ elS < e

/-- The per-annotation console output, one constructor per `console.log`
call site inside the annotation loop (lines 158, 174, 190, 199, 203, 315). -/
inductive Diag where
  | missingPosition (type snippet : Str)
  | lookingToHighlight (startN endN : Nat)
  | invalidRelativePositions (relStart relEnd len : Nat)
  | noTextToHighlight
  | foundTextToHighlight (s : Str)
  | noMatch (startN endN : Nat)
deriving DecidableEq

/-- Text content of the tooltip built in Case 1:
`<div>${clauseInfo.name}</div><div>${Math.round(confidence)}% confidence</div>`
plus the textless arrow div. -/
def tooltipText (cinfo : ClauseInfo) (a : Annot) : Str :=
  cinfo.name ++ natToStr a.confidence ++ "% confidence".data

/-- The highlight span of Case 1 (lines 206-226): carries
`data-confidence` and contains the tooltip. -/
def mkHighlightContained (a : Annot) (cinfo : ClauseInfo) (startN : Nat)
    (txt : Str) : Highlight :=
  { clauseType := a.type
    annotId := dataAnnotId a.type startN
    confidence := some (natToStr a.confidence)
    userClass := a.user
    color := cinfo.color
    text := txt
    tooltip := some (tooltipText cinfo a) }

/-- The highlight span of Cases 2 and 3 (lines 258-265, 290-297): no
`data-confidence` attribute and no tooltip. -/
def mkHighlightOverlap (a : Annot) (cinfo : ClauseInfo) (startN : Nat)
    (txt : Str) : Highlight :=
  { clauseType := a.type
    annotId := dataAnnotId a.type startN
    confidence := none
    userClass := a.user
    color := cinfo.color
    text := txt
    tooltip := none }

/-- Result of visiting one element for one annotation: the (possibly
replaced) element, the console output, and the emitted highlight if the
element was spliced (`foundMatch` was set exactly when a splice happened). -/
structure StepResult where
  elem : Elem
  diags : List Diag
  emitted : Option Highlight
deriving DecidableEq

/-- One iteration of the `for (const element of elements)` loop body for
annotation `a` with range `[s, e)` and catalog entry `cinfo`.

Case 1: `relativeStart = start - elStart`, `relativeEnd = end - elStart`;
the guard `relativeEnd <= relativeStart || relativeStart >= length`
`continue`s.  (If `end < elStart` the JS `relativeEnd` is negative and
the guard fires; the truncated `Nat` subtraction also makes the guard
fire, so the branches agree.)  Otherwise the element is replaced by a
clone holding optional before-text, the highlight span (with tooltip),
and optional after-text.

Case 2: `relativeStart = Math.max(0, start - elStart)` (the case guard
gives `elStart ≤ start`, so this is `start - elStart`); replacement has
optional before-text then the highlight span, nothing after.

Case 3: `relativeEnd = end - elStart`; replacement has the highlight
span then optional after-text. -/
def stepElem (a : Annot) (cinfo : ClauseInfo) (s e : Nat) (el : Elem) :
    StepResult :=
  let elS := el.dataStart
  let txt := el.textContent
  match classifyCode s e elS el.dataEnd with
  | some .contained =>
      let relS := s - elS
      let relE := e - elS
      if relE ≤ relS ∨ txt.length ≤ relS then
        ⟨el, [.invalidRelativePositions relS relE txt.length], none⟩
      else
        let before := txt.take relS
        let high := (txt.drop relS).take (relE - relS)
        let after := txt.drop relE
        if high = [] then ⟨el, [.noTextToHighlight], none⟩
        else
          let h := mkHighlightContained a cinfo s high
          ⟨{ el with children :=
                (if before = [] then [] else [Child.textNode before]) ++
                  Child.highlight h ::
                    (if after = [] then [] else [Child.textNode after]) },
            [.foundTextToHighlight high], some h⟩
  | some .leftOverlap =>
      let relS := s - elS
      let before := txt.take relS
      let high := txt.drop relS
      if high = [] then ⟨el, [], none⟩
      else
        let h := mkHighlightOverlap a cinfo s high
        ⟨{ el with children :=
              (if before = [] then [] else [Child.textNode before]) ++
                [Child.highlight h] },
          [], some h⟩
  | some .rightOverlap =>
      let relE := e - elS
      let high := txt.take relE
      let after := txt.drop relE
      if high = [] then ⟨el, [], none⟩
      else
        let h := mkHighlightOverlap a cinfo s high
        ⟨{ el with children :=
              Child.highlight h ::
                (if after = [] then [] else [Child.textNode after]) },
          [], some h⟩
  | none => ⟨el, [], none⟩

/-- Result of the full element loop for one annotation. -/
structure RunResult where
  elems : List Elem
  diags : List Diag
  highlights : List Highlight
deriving DecidableEq

/-- The `for (const element of elements)` loop: the node list is the
static per-annotation query result, each element visited once, spliced
elements substituted at their position. -/
def runElems (a : Annot) (cinfo : ClauseInfo) (s e : Nat) :
    List Elem → RunResult
  | [] => ⟨[], [], []⟩
  | el :: rest =>
      let r := stepElem a cinfo s e el
      let rr := runElems a cinfo s e rest
      ⟨r.elem :: rr.elems, r.diags ++ rr.diags,
        r.emitted.toList ++ rr.highlights⟩

/-- Result of processing annotations against the document: the rewritten
element list, accumulated console output, and every emitted highlight
paired with the annotation that produced it. -/
structure PassResult where
  doc : List Elem
  diags : List Diag
  emitted : List (Annot × Highlight)
deriving DecidableEq

/-- The body of `visibleAnnotations.forEach` (lines 156-317): skip with a
log when `position` is missing; silently skip when the catalog has no
entry for the frontend-format type; otherwise log, run the element loop
against the current document, and log `noMatch` when nothing was spliced. -/
def processAnnot (cat : Catalog) (a : Annot) (doc : List Elem) : PassResult :=
  match a.position with
  | none => ⟨doc, [.missingPosition a.type (a.selected_text.take 50)], []⟩
  | some p =>
      match catLookup cat (convertClauseTypeToFrontendFormat a.type) with
      | none => ⟨doc, [], []⟩
      | some cinfo =>
          let s := p.start
          let e := p.endPos
          let r := runElems a cinfo s e doc
          ⟨r.elems,
            Diag.lookingToHighlight s e :: r.diags ++
              (if r.highlights.isEmpty then [Diag.noMatch s e] else []),
            r.highlights.map (fun h => (a, h))⟩

/-- The `forEach` over the sorted visible annotations: each annotation is
resolved against the document as left by the previous one (the element
query re-runs per annotation). -/
def applyAnnots (cat : Catalog) : List Annot → List Elem → PassResult
  | [], doc => ⟨doc, [], []⟩
  | a :: rest, doc =>
      let r := processAnnot cat a doc
      let rr := applyAnnots cat rest r.doc
      ⟨rr.doc, r.diags ++ rr.diags, r.emitted ++ rr.emitted⟩

/-- The sort key `(a.position?.start || 0)` of line 150. -/
def sortKey (a : Annot) : Nat := (a.position.map Position.start).getD 0

/-- Stable insertion by `sortKey` (an element goes after existing equal
keys, which is the order a stable comparator sort produces). -/
def insertByStart (a : Annot) : List Annot → List Annot
  | [] => [a]
  | b :: rest =>
      if sortKey a < sortKey b then a :: b :: rest else b :: insertByStart a rest

/-- Stable sort by ascending `position.start`, as
`.sort((a, b) => (a.position?.start || 0) - (b.position?.start || 0))`
performs on the filtered annotation list. -/
def sortAnnots : List Annot → List Annot
  | [] => []
  | a :: rest => insertByStart a (sortAnnots rest)

/-- Lines 147-150: the active annotation set, AI clauses then user
annotations, kept when the active filter contains the frontend-format
type, then stably sorted by start offset. -/
def visibleAnnots (activeFilters : List Str) (clauses userAnns : List Annot) :
    List Annot :=
  sortAnnots ((clauses ++ userAnns).filter
    (fun a => decide (convertClauseTypeToFrontendFormat a.type ∈ activeFilters)))

/-- One overlay pass of `processContent` over the queried leaf elements
(page-visibility toggling and serialization do not touch them further). -/
def overlayPass (cat : Catalog) (activeFilters : List Str)
    (clauses userAnns : List Annot) (doc : List Elem) : PassResult :=
  applyAnnots cat (visibleAnnots activeFilters clauses userAnns) doc

/-- `` `${clauseType}-${clause.position?.start}` `` of the click handler:
`undefined` is interpolated when the annotation has no position. -/
def optStartStr : Option Position → Str
  | none => "undefined".data
  | some p => natToStr p.start

/-- The `onClick` lookup (lines 393-400): first annotation in
`[...document.clauses, ...userAnnotations]` whose `type` equals the
clicked `data-clause-type` and whose reconstructed identifier equals the
clicked `data-annotation-id`. -/
def resolveClick (anns : List Annot) (clauseType idAttr : Str) : Option Annot :=
  match anns with
  | [] => none
  | c :: rest =>
      if c.type = clauseType ∧ clauseType ++ '-' :: optStartStr c.position = idAttr
      then some c
      else resolveClick rest clauseType idAttr

/-- Concrete node for the C3 scenario: range `[0, 10)`, pristine text. -/
def elExC3 : Elem := ⟨0, 10, [], [Child.textNode "abcdefghij".data]⟩

/-- Concrete annotation `[2, 5)` for the C3 scenario. -/
def aExC3 : Annot :=
  ⟨"assignment".data, "cde".data, "r".data, 80, some ⟨2, 5⟩, false⟩

/-- Concrete catalog entry for the C3 scenario. -/
def ciExC3 : ClauseInfo := ⟨"Assignment".data, "#F97316".data⟩

/-- C3 witness nodes: disjoint ranges `[0, 10)` and `[10, 20)`. -/
def elW1C3 : Elem := ⟨0, 10, [], [Child.textNode "abcdefghij".data]⟩

/-- Second C3 witness node. -/
def elW2C3 : Elem := ⟨10, 20, [], [Child.textNode "klmnopqrst".data]⟩

/-- The replacement element keeps the original's attributes
(`cloneNode(false)` copies them; only the children are rebuilt). -/
def attrsPreserved (el el' : Elem) : Prop :=
  el'.dataStart = el.dataStart ∧ el'.dataEnd = el.dataEnd ∧
    el'.otherAttrs = el.otherAttrs

/-- Shape of a Contained replacement: optional nonempty pre-text, the
one highlight span, optional nonempty post-text; the three concatenate
back to the node's text and the highlighted text is the
`[start - elStart, end - elStart)` slice. -/
def containedShape (el el' : Elem) (h : Highlight) (s e : Nat) : Prop :=
  ∃ pre post : Str,
    el'.children = (if pre = [] then [] else [Child.textNode pre]) ++
      Child.highlight h :: (if post = [] then [] else [Child.textNode post]) ∧
    pre ++ h.text ++ post = el.textContent ∧
    h.text = ((el.textContent).drop (s - el.dataStart)).take
      ((e - el.dataStart) - (s - el.dataStart)) ∧
    h.text ≠ []

/-- Shape of a LeftOverlap replacement: optional nonempty pre-text then
the highlight span; no post-text node. -/
def leftShape (el el' : Elem) (h : Highlight) : Prop :=
  ∃ pre : Str,
    el'.children = (if pre = [] then [] else [Child.textNode pre]) ++
      [Child.highlight h] ∧
    pre ++ h.text = el.textContent ∧ h.text ≠ []

/-- Shape of a RightOverlap replacement: the highlight span then
optional nonempty post-text; no pre-text node. -/
def rightShape (el el' : Elem) (h : Highlight) : Prop :=
  ∃ post : Str,
    el'.children = Child.highlight h ::
      (if post = [] then [] else [Child.textNode post]) ∧
    h.text ++ post = el.textContent ∧ h.text ≠ []

/-- C4 witness annotation: `[12, 15)`, contained in the node below. -/
def aW4 : Annot :=
  ⟨"severability".data, "mno".data, "r".data, 90, some ⟨12, 15⟩, false⟩

/-- C4 witness catalog entry. -/
def ciW4 : ClauseInfo := ⟨"Severability".data, "#EC4899".data⟩

/-- C4 witness node: range `[10, 20)` with one extra attribute. -/
def elW4 : Elem :=
  ⟨10, 20, [("class".data, "text".data)], [Child.textNode "klmnopqrst".data]⟩

/-- C4 witness highlight: the Case 1 span for the `[12, 15)` splice. -/
def hW4 : Highlight := mkHighlightContained aW4 ciW4 12 "mno".data

/-- C5 witness document text, 20 characters. -/
def docW5 : Str := "abcdefghijklmnopqrst".data

/-- C5 witness annotation: `[5, 15)` across the two nodes below. -/
def aW5 : Annot :=
  ⟨"no_waiver".data, (docW5.drop 5).take 10, "r".data, 75, some ⟨5, 15⟩, false⟩

/-- C5 witness catalog entry. -/
def ciW5 : ClauseInfo := ⟨"No Waiver".data, "#14B8A6".data⟩

/-- C5 witness catalog. -/
def catW5 : Catalog := [("no-waiver".data, ciW5)]

/-- C6 counterexample catalog (does not know `unknown_type`). -/
def catC6 : Catalog :=
  [("governing-law".data, ⟨"Governing Law".data, "#64748B".data⟩)]

/-- C6 counterexample annotation: degenerate range `[5, 3)` and a type
absent from the catalog. -/
def aC6 : Annot := ⟨"unknown_type".data, "x".data, "r".data, 50, some ⟨5, 3⟩, false⟩

/-- C6 counterexample document. -/
def docC6 : List Elem := [⟨0, 60, [], [Child.textNode "abc".data]⟩]

/-- C6 witness annotation: degenerate range `[7, 4)`, type known to the
catalog `catC6`. -/
def aW6 : Annot := ⟨"governing_law".data, "xy".data, "r".data, 40, some ⟨7, 4⟩, false⟩

/-- C7 counterexample catalog: knows the user-comment type. -/
def catC7 : Catalog := [("review-comments".data, ⟨"Review".data, "#123456".data⟩)]

/-- C7 counterexample user annotation, contained in one node. -/
def aC7 : Annot :=
  ⟨"review-comments".data, "cde".data, "User annotation".data, 100,
    some ⟨2, 5⟩, true⟩

/-- C7 counterexample document, one node `[0, 10)`. -/
def docC7 : List Elem := [⟨0, 10, [], [Child.textNode "abcdefghij".data]⟩]

/-- The highlight the C7 counterexample produces. -/
def hC7 : Highlight :=
  mkHighlightContained aC7 ⟨"Review".data, "#123456".data⟩ 2 "cde".data

/-- C7 counterexample AI annotation spanning two nodes. -/
def aC7b : Annot :=
  ⟨"governing_law".data, "x".data, "r".data, 88, some ⟨5, 15⟩, false⟩

/-- C7 counterexample two-node document. -/
def docC7b : List Elem :=
  [⟨0, 10, [], [Child.textNode "abcdefghij".data]⟩,
    ⟨10, 20, [], [Child.textNode "klmnopqrst".data]⟩]

/-- C9 counterexample annotations: same type, same start offset 5. -/
def b1C9 : Annot :=
  ⟨"governing_law".data, "fgh".data, "r".data, 80, some ⟨5, 8⟩, false⟩

/-- Second C9 counterexample annotation, a distinct object. -/
def b2C9 : Annot :=
  ⟨"governing_law".data, "fghi".data, "r".data, 60, some ⟨5, 9⟩, false⟩

/-- C9 counterexample document. -/
def docC9 : List Elem :=
  [⟨0, 20, [], [Child.textNode "abcdefghijklmnopqrst".data]⟩]

/-- Default pair for list indexing in the C9/C1 counterexamples. -/
def dfltPr : Annot × Highlight :=
  (b1C9, mkHighlightOverlap b1C9 ⟨[], []⟩ 0 [])

/-- C9 witness annotation. -/
def aW9 : Annot :=
  ⟨"governing_law".data, "cde".data, "r".data, 77, some ⟨2, 5⟩, false⟩

/-- C9 witness highlight, the Contained splice of `[2, 5)`. -/
def hW9 : Highlight :=
  mkHighlightContained aW9 ⟨"Governing Law".data, "#64748B".data⟩ 2 "cde".data

/-- C10 counterexample annotation: type unknown to the catalog AND no
position. -/
def aC10 : Annot := ⟨"unknown_type".data, "xyz".data, "r".data, 50, none, false⟩

/-- C10 witness annotation: positioned, type unknown to the catalog. -/
def aW10 : Annot :=
  ⟨"unknown_type".data, "x".data, "r".data, 50, some ⟨1, 3⟩, false⟩

/-- C1 document text: 60 distinct characters. -/
def txtC1 : Str :=
  "abcdefghijklmnopqrstuvwxyzABCDEFGHIJKLMNOPQRSTUVWXYZ0123456".data

/-- C1 first annotation `[10, 30)`. -/
def aAC1 : Annot :=
  ⟨"governing_law".data, (txtC1.drop 10).take 20, "r".data, 85,
    some ⟨10, 30⟩, false⟩

/-- C1 second annotation `[20, 40)`, overlapping the first. -/
def aBC1 : Annot :=
  ⟨"governing_law".data, (txtC1.drop 20).take 20, "r".data, 70,
    some ⟨20, 40⟩, false⟩

/-- C1 document: one leaf node `[0, 60)` holding the full text. -/
def docC1 : List Elem := [⟨0, 60, [], [Child.textNode txtC1]⟩]

/-- The C1 overlay pass over both annotations. -/
def resC1 : PassResult :=
  overlayPass catC6 ["governing-law".data] [aAC1, aBC1] [] docC1

/-! ## Helper lemmas -/

/-- Replacing `x` by `y` and then `y` by `x` is the identity on a string
not containing `y`. -/
theorem map_swap_inv (x y : Char) (l : Str) (hl : y ∉ l) :
    (l.map (fun c => if c = x then y else c)).map
      (fun c => if c = y then x else c) = l := by
  induction l with
  | nil => rfl
  | cons c cs ih =>
      have hcy : c ≠ y := fun h => hl (by simp [h])
      have htl : y ∉ cs := fun h => hl (List.mem_cons_of_mem _ h)
      by_cases hc : c = x
      · simp [List.map_cons, hc, ih htl]
      · simp [List.map_cons, hc, hcy, ih htl]

/-- Condition extracted from a `contained` classification. -/
theorem classify_contained_cond {s e elS elE : Nat}
    (h : classifyCode s e elS elE = some Cls.contained) : elS ≤ s ∧ e ≤ elE := by
  unfold classifyCode at h
  split_ifs at h <;> simp_all

/-- Condition extracted from a `leftOverlap` classification. -/
theorem classify_left_cond {s e elS elE : Nat}
    (h : classifyCode s e elS elE = some Cls.leftOverlap) :
    elS ≤ s ∧ elE ≤ e ∧ s < elE := by
  unfold classifyCode at h
  split_ifs at h <;> simp_all

/-- Condition extracted from a `rightOverlap` classification. -/
theorem classify_right_cond {s e elS elE : Nat}
    (h : classifyCode s e elS elE = some Cls.rightOverlap) :
    s ≤ elS ∧ elS < e ∧ e ≤ elE := by
  unfold classifyCode at h
  split_ifs at h <;> simp_all

/-! ## C8 -/

/-- C8: the two clause-type encoding converters are mutually inverse on
their input domains: round-tripping an underscored type with no hyphen,
or a hyphenated type with no underscore, is the identity. -/
theorem C8_converters_mutually_inverse (t u : Str)
    (ht : '-' ∉ t) (hu : '_' ∉ u) :
    convertClauseTypeToBackendFormat (convertClauseTypeToFrontendFormat t) = t ∧
    convertClauseTypeToFrontendFormat (convertClauseTypeToBackendFormat u) = u :=
  ⟨map_swap_inv '_' '-' t ht, map_swap_inv '-' '_' u hu⟩

/-- C8 witness: the round trips at `force_majeure` and `governing-law`. -/
theorem C8_converters_mutually_inverse_witness :
    '-' ∉ "force_majeure".data ∧ '_' ∉ "governing-law".data ∧
      (convertClauseTypeToBackendFormat
          (convertClauseTypeToFrontendFormat "force_majeure".data) =
            "force_majeure".data ∧
        convertClauseTypeToFrontendFormat
          (convertClauseTypeToBackendFormat "governing-law".data) =
            "governing-law".data) :=
  ⟨by decide, by decide,
    C8_converters_mutually_inverse "force_majeure".data "governing-law".data
      (by decide) (by decide)⟩

/-! ## C2 -/

/-- C2 counterexample: the node `[3, 6)` intersects the well-formed
annotation range `[0, 10)` and lies strictly inside it, yet the code's
case dispatch gives it no classification, and the element loop leaves
such a node untouched and emits no highlight for it - against the
claim that every intersecting leaf node receives a classification and a
highlight. -/
theorem C2_strictly_inside_counterexample :
    intersects 0 10 3 6 ∧ classifyCode 0 10 3 6 = none ∧
      stepElem ⟨"assignment".data, "abc".data, [], 80, some ⟨0, 10⟩, false⟩
          ⟨"Assignment".data, "#F97316".data⟩ 0 10
          ⟨3, 6, [], [Child.textNode "def".data]⟩ =
        ⟨⟨3, 6, [], [Child.textNode "def".data]⟩, [], none⟩ := by
  refine ⟨⟨by decide, by decide⟩, by decide, by decide⟩

/-- C2 (amended): for a well-formed range `start < end`, the case
dispatch classifies with exactly the spec's three conditions, in the
precedence order Contained, then LeftOverlap, then RightOverlap - but a
node whose range lies strictly inside `(start, end)` receives no
classification at all. -/
theorem C2_classification_conditions (s e elS elE : Nat) (hse : s < e) :
    (classifyCode s e elS elE = some Cls.contained ↔ specContained s e elS elE) ∧
    (classifyCode s e elS elE = some Cls.leftOverlap ↔
      ¬ specContained s e elS elE ∧ specLeftOverlap s e elS elE) ∧
    (classifyCode s e elS elE = some Cls.rightOverlap ↔
      ¬ specContained s e elS elE ∧ ¬ specLeftOverlap s e elS elE ∧
        specRightOverlap s e elS elE) ∧
    (s < elS ∧ elE < e → classifyCode s e elS elE = none) := by
  unfold classifyCode specContained specLeftOverlap specRightOverlap
  split_ifs <;> simp_all <;> omega

/-- C2 witness: the classification conditions at the concrete range
`[5, 9)` against the node `[2, 20)`. -/
theorem C2_classification_conditions_witness :
    (5 : Nat) < 9 ∧
      ((classifyCode 5 9 2 20 = some Cls.contained ↔ specContained 5 9 2 20) ∧
        (classifyCode 5 9 2 20 = some Cls.leftOverlap ↔
          ¬ specContained 5 9 2 20 ∧ specLeftOverlap 5 9 2 20) ∧
        (classifyCode 5 9 2 20 = some Cls.rightOverlap ↔
          ¬ specContained 5 9 2 20 ∧ ¬ specLeftOverlap 5 9 2 20 ∧
            specRightOverlap 5 9 2 20) ∧
        (5 < 2 ∧ 20 < 9 → classifyCode 5 9 2 20 = none)) :=
  ⟨by decide, C2_classification_conditions 5 9 2 20 (by decide)⟩

/-! ## C3 -/

/-- C3 counterexample: the element loop has no short-circuit.  With two
candidate nodes of range `[0, 10)` and the annotation `[2, 5)`, the
first node is a Contained match and is spliced, yet the loop goes on to
examine the second node and splices it too: two highlights are emitted
for the one annotation and the later node is also replaced - against
the claim that after a Contained match no later node is examined or
spliced. -/
theorem C3_no_short_circuit_counterexample :
    classifyCode 2 5 elExC3.dataStart elExC3.dataEnd = some Cls.contained ∧
      (stepElem aExC3 ciExC3 2 5 elExC3).emitted.isSome = true ∧
      (runElems aExC3 ciExC3 2 5 [elExC3, elExC3]).highlights.length = 2 ∧
      (runElems aExC3 ciExC3 2 5 [elExC3, elExC3]).elems.getD 1 elExC3 ≠ elExC3 := by
  refine ⟨by decide, by decide, by decide, by decide⟩

/-- C3 (amended): the loop examines every candidate node with no
short-circuit, but when candidate ranges are pairwise disjoint (the
document invariant) a node spliced as Contained is the only node spliced
for that annotation: any other disjoint node is left untouched, with no
highlight and no diagnostic. -/
theorem C3_contained_excludes_second_splice (a : Annot) (ci : ClauseInfo)
    (s e : Nat) (el1 el2 : Elem)
    (hdisj : el1.dataEnd ≤ el2.dataStart ∨ el2.dataEnd ≤ el1.dataStart)
    (hc : classifyCode s e el1.dataStart el1.dataEnd = some Cls.contained)
    (hs : (stepElem a ci s e el1).emitted.isSome = true) :
    stepElem a ci s e el2 = ⟨el2, [], none⟩ := by
  obtain ⟨h1, h2⟩ := classify_contained_cond hc
  have hse : s < e := by
    simp only [stepElem, hc] at hs
    split at hs
    · simp at hs
    · next hg => push_neg at hg; omega
  have hnone : classifyCode s e el2.dataStart el2.dataEnd = none := by
    unfold classifyCode
    split_ifs with ho hco hl hr
    · exact absurd hco (by omega)
    · exact absurd hl (by omega)
    · exact absurd hr (by omega)
    · rfl
    · rfl
  simp only [stepElem, hnone]

/-- C3 witness: with disjoint nodes `[0, 10)`, `[10, 20)` and the
annotation `[2, 5)` spliced as Contained in the first, the second node
is untouched. -/
theorem C3_contained_excludes_second_splice_witness :
    (elW1C3.dataEnd ≤ elW2C3.dataStart ∨ elW2C3.dataEnd ≤ elW1C3.dataStart) ∧
      classifyCode 2 5 elW1C3.dataStart elW1C3.dataEnd = some Cls.contained ∧
      (stepElem aExC3 ciExC3 2 5 elW1C3).emitted.isSome = true ∧
      stepElem aExC3 ciExC3 2 5 elW2C3 = ⟨elW2C3, [], none⟩ :=
  ⟨by decide, by decide, by decide,
    C3_contained_excludes_second_splice aExC3 ciExC3 2 5 elW1C3 elW2C3
      (by decide) (by decide) (by decide)⟩

/-! ## C4 -/

/-- Every branch of the element step keeps the original attributes. -/
theorem stepElem_attrs (a : Annot) (ci : ClauseInfo) (s e : Nat) (el : Elem) :
    attrsPreserved el (stepElem a ci s e el).elem := by
  rcases hcc : classifyCode s e el.dataStart el.dataEnd with _ | cls
  · simp [stepElem, hcc, attrsPreserved]
  · cases cls <;> simp only [stepElem, hcc] <;> split_ifs <;>
      simp [attrsPreserved]

/-- A Contained splice has the Contained shape. -/
theorem stepElem_contained_shape (a : Annot) (ci : ClauseInfo) (s e : Nat)
    (el : Elem) (h : Highlight)
    (hcc : classifyCode s e el.dataStart el.dataEnd = some Cls.contained)
    (hem : (stepElem a ci s e el).emitted = some h) :
    containedShape el (stepElem a ci s e el).elem h s e := by
  simp only [stepElem, hcc] at hem ⊢
  split at hem
  next hg => exact absurd hem (by simp)
  next hg =>
    split at hem
    next hh => exact absurd hem (by simp)
    next hh =>
      push_neg at hg
      obtain ⟨hg1, hg2⟩ := hg
      rw [Option.some.injEq] at hem
      subst hem
      rw [if_neg (by omega : ¬ (e - el.dataStart ≤ s - el.dataStart ∨
        (el.textContent).length ≤ s - el.dataStart)), if_neg hh]
      refine ⟨(el.textContent).take (s - el.dataStart),
        (el.textContent).drop (e - el.dataStart), rfl, ?_, rfl, hh⟩
      rw [List.append_assoc]
      have hdd : (el.textContent).drop (e - el.dataStart) =
          ((el.textContent).drop (s - el.dataStart)).drop
            ((e - el.dataStart) - (s - el.dataStart)) := by
        rw [List.drop_drop]
        congr 1
        omega
      rw [mkHighlightContained, hdd, List.take_append_drop,
        List.take_append_drop]

/-- A LeftOverlap splice has the LeftOverlap shape. -/
theorem stepElem_left_shape (a : Annot) (ci : ClauseInfo) (s e : Nat)
    (el : Elem) (h : Highlight)
    (hcc : classifyCode s e el.dataStart el.dataEnd = some Cls.leftOverlap)
    (hem : (stepElem a ci s e el).emitted = some h) :
    leftShape el (stepElem a ci s e el).elem h := by
  simp only [stepElem, hcc] at hem ⊢
  split at hem
  next hh => exact absurd hem (by simp)
  next hh =>
    rw [Option.some.injEq] at hem
    subst hem
    rw [if_neg hh]
    exact ⟨(el.textContent).take (s - el.dataStart), rfl,
      List.take_append_drop .., hh⟩

/-- A RightOverlap splice has the RightOverlap shape. -/
theorem stepElem_right_shape (a : Annot) (ci : ClauseInfo) (s e : Nat)
    (el : Elem) (h : Highlight)
    (hcc : classifyCode s e el.dataStart el.dataEnd = some Cls.rightOverlap)
    (hem : (stepElem a ci s e el).emitted = some h) :
    rightShape el (stepElem a ci s e el).elem h := by
  simp only [stepElem, hcc] at hem ⊢
  split at hem
  next hh => exact absurd hem (by simp)
  next hh =>
    rw [Option.some.injEq] at hem
    subst hem
    rw [if_neg hh]
    exact ⟨(el.textContent).drop (e - el.dataStart), rfl,
      List.take_append_drop .., hh⟩

/-- C4: whenever the splicer replaces a node, the replacement keeps the
node's non-text attributes and has, per classification case, the spec's
child layout: optional nonempty pre-text, exactly one highlight span,
optional nonempty post-text, with the post-text omitted for LeftOverlap
and the pre-text omitted for RightOverlap; for Contained the three parts
concatenate to the node's text and the highlighted text is
`original[start - elStart : end - elStart]`. -/
theorem C4_splicer_replacement_shape (a : Annot) (ci : ClauseInfo)
    (s e : Nat) (el : Elem) (h : Highlight)
    (hem : (stepElem a ci s e el).emitted = some h) :
    attrsPreserved el (stepElem a ci s e el).elem ∧
    (classifyCode s e el.dataStart el.dataEnd = some Cls.contained →
      containedShape el (stepElem a ci s e el).elem h s e) ∧
    (classifyCode s e el.dataStart el.dataEnd = some Cls.leftOverlap →
      leftShape el (stepElem a ci s e el).elem h) ∧
    (classifyCode s e el.dataStart el.dataEnd = some Cls.rightOverlap →
      rightShape el (stepElem a ci s e el).elem h) :=
  ⟨stepElem_attrs a ci s e el,
    fun hcc => stepElem_contained_shape a ci s e el h hcc hem,
    fun hcc => stepElem_left_shape a ci s e el h hcc hem,
    fun hcc => stepElem_right_shape a ci s e el h hcc hem⟩

/-- C4 witness: the Contained splice of `[12, 15)` into the node
`[10, 20)` has the claimed shape. -/
theorem C4_splicer_replacement_shape_witness :
    (stepElem aW4 ciW4 12 15 elW4).emitted = some hW4 ∧
      (attrsPreserved elW4 (stepElem aW4 ciW4 12 15 elW4).elem ∧
        (classifyCode 12 15 elW4.dataStart elW4.dataEnd = some Cls.contained →
          containedShape elW4 (stepElem aW4 ciW4 12 15 elW4).elem hW4 12 15) ∧
        (classifyCode 12 15 elW4.dataStart elW4.dataEnd = some Cls.leftOverlap →
          leftShape elW4 (stepElem aW4 ciW4 12 15 elW4).elem hW4) ∧
        (classifyCode 12 15 elW4.dataStart elW4.dataEnd = some Cls.rightOverlap →
          rightShape elW4 (stepElem aW4 ciW4 12 15 elW4).elem hW4)) :=
  ⟨by decide, C4_splicer_replacement_shape aW4 ciW4 12 15 elW4 hW4 (by decide)⟩

/-! ## C5 -/

/-- Dropping into a slice is slicing further right. -/
theorem slice_drop (l : Str) (s1 e1 s : Nat) (h : s1 ≤ s) :
    ((l.drop s1).take (e1 - s1)).drop (s - s1) = (l.drop s).take (e1 - s) := by
  rw [List.drop_take, List.drop_drop]
  have h1 : s1 + (s - s1) = s := by omega
  have h2 : (e1 - s1) - (s - s1) = e1 - s := by omega
  rw [h1, h2]

/-- Shortening a slice from the right. -/
theorem slice_take (l : Str) (e1 e2 e : Nat) (h : e ≤ e2) :
    ((l.drop e1).take (e2 - e1)).take (e - e1) = (l.drop e1).take (e - e1) := by
  rw [List.take_take]
  have : min (e - e1) (e2 - e1) = e - e1 := by omega
  rw [this]

/-- Two adjacent slices concatenate to the enclosing slice. -/
theorem slice_glue (l : Str) (s m e : Nat) (h1 : s ≤ m) (h2 : m ≤ e) :
    (l.drop s).take (m - s) ++ (l.drop m).take (e - m) = (l.drop s).take (e - s) := by
  have hd : l.drop m = (l.drop s).drop (m - s) := by
    rw [List.drop_drop]
    congr 1
    omega
  rw [hd, ← List.take_add]
  congr 1
  omega

/-- Length of a slice that stays inside the list. -/
theorem slice_len (l : Str) (s1 e1 : Nat) (h1 : e1 ≤ l.length) :
    ((l.drop s1).take (e1 - s1)).length = e1 - s1 := by
  rw [List.length_take, List.length_drop]
  omega

/-- C5: an annotation `[s, e)` spanning exactly two adjacent leaf nodes
`[s1, e1)` and `[e1, e2)` whose text agrees with the original document
produces exactly one LeftOverlap and one RightOverlap highlight, and
their texts concatenate to the annotation's full `selected_text`. -/
theorem C5_two_node_split_coverage (cat : Catalog) (a : Annot)
    (ci : ClauseInfo) (docText : Str) (s1 e1 e2 s e : Nat)
    (at1 at2 : List (Str × Str))
    (hcat : catLookup cat (convertClauseTypeToFrontendFormat a.type) = some ci)
    (hpos : a.position = some ⟨s, e⟩)
    (hsel : a.selected_text = (docText.drop s).take (e - s))
    (h1 : s1 ≤ s) (h2 : s < e1) (h3 : e1 < e) (h4 : e ≤ e2)
    (h5 : e2 ≤ docText.length) :
    ∃ hL hR : Highlight,
      (processAnnot cat a
        [⟨s1, e1, at1, [Child.textNode ((docText.drop s1).take (e1 - s1))]⟩,
          ⟨e1, e2, at2, [Child.textNode ((docText.drop e1).take (e2 - e1))]⟩]).emitted
        = [(a, hL), (a, hR)] ∧
      hL.text ++ hR.text = a.selected_text := by
  have hc1 : classifyCode s e s1 e1 = some Cls.leftOverlap := by
    unfold classifyCode
    split_ifs <;> first | rfl | (exfalso; omega)
  have hc2 : classifyCode s e e1 e2 = some Cls.rightOverlap := by
    unfold classifyCode
    split_ifs <;> first | rfl | (exfalso; omega)
  have hne1 : ((docText.drop s1).take (e1 - s1)).drop (s - s1) ≠ [] := by
    apply List.length_pos.mp
    rw [List.length_drop, slice_len docText s1 e1 (by omega)]
    omega
  have hne2 : ((docText.drop e1).take (e2 - e1)).take (e - e1) ≠ [] := by
    apply List.length_pos.mp
    rw [List.length_take, slice_len docText e1 e2 (by omega)]
    omega
  refine ⟨mkHighlightOverlap a ci s (((docText.drop s1).take (e1 - s1)).drop (s - s1)),
    mkHighlightOverlap a ci s (((docText.drop e1).take (e2 - e1)).take (e - e1)),
    ?_, ?_⟩
  · simp only [processAnnot, hpos, hcat, runElems, stepElem, Elem.textContent,
      Child.textContent, List.map_cons, List.map_nil, List.flatten_cons,
      List.flatten_nil, List.append_nil, hc1, hc2]
    rw [if_neg hne1, if_neg hne2]
    rfl
  · simp only [mkHighlightOverlap]
    rw [hsel, slice_drop docText s1 e1 s h1, slice_take docText e1 e2 e h4,
      slice_glue docText s e1 e (by omega) (by omega)]

/-- C5 witness: the annotation `[5, 15)` over nodes `[0, 10)` and
`[10, 20)` of the 20-character document splits into two highlights whose
texts concatenate to its `selected_text`. -/
theorem C5_two_node_split_coverage_witness :
    catLookup catW5 (convertClauseTypeToFrontendFormat aW5.type) = some ciW5 ∧
      aW5.position = some ⟨5, 15⟩ ∧
      aW5.selected_text = (docW5.drop 5).take 10 ∧
      (∃ hL hR : Highlight,
        (processAnnot catW5 aW5
          [⟨0, 10, [], [Child.textNode ((docW5.drop 0).take 10)]⟩,
            ⟨10, 20, [], [Child.textNode ((docW5.drop 10).take 10)]⟩]).emitted
          = [(aW5, hL), (aW5, hR)] ∧
        hL.text ++ hR.text = aW5.selected_text) :=
  ⟨by decide, rfl, rfl,
    C5_two_node_split_coverage catW5 aW5 ciW5 docW5 0 10 20 5 15 [] []
      (by decide) rfl rfl (by decide) (by decide) (by decide) (by decide)
      (by decide)⟩

/-! ## C6 -/

/-- A degenerate range (`end ≤ start`) never changes an element and
never emits a highlight: only Case 1 can match, and its relative-range
guard fires. -/
theorem stepElem_degenerate (a : Annot) (ci : ClauseInfo) (s e : Nat)
    (el : Elem) (hdeg : e ≤ s) :
    (stepElem a ci s e el).elem = el ∧ (stepElem a ci s e el).emitted = none := by
  rcases hcc : classifyCode s e el.dataStart el.dataEnd with _ | cls
  · simp [stepElem, hcc]
  · cases cls
    · obtain ⟨hc1, hc2⟩ := classify_contained_cond hcc
      simp only [stepElem, hcc]
      rw [if_pos (Or.inl (by omega : e - el.dataStart ≤ s - el.dataStart))]
      exact ⟨rfl, rfl⟩
    · obtain ⟨hl1, hl2, hl3⟩ := classify_left_cond hcc
      exact absurd hdeg (by omega)
    · obtain ⟨hr1, hr2, hr3⟩ := classify_right_cond hcc
      exact absurd hdeg (by omega)

/-- The element loop on a degenerate range leaves the document unchanged
and emits nothing. -/
theorem runElems_degenerate (a : Annot) (ci : ClauseInfo) (s e : Nat)
    (hdeg : e ≤ s) (l : List Elem) :
    (runElems a ci s e l).elems = l ∧ (runElems a ci s e l).highlights = [] := by
  induction l with
  | nil => exact ⟨rfl, rfl⟩
  | cons el rest ih =>
      obtain ⟨he, hm⟩ := stepElem_degenerate a ci s e el hdeg
      simp [runElems, he, hm, ih.1, ih.2]

/-- A position-less annotation is skipped with exactly the
missing-position diagnostic. -/
theorem processAnnot_missing_position (cat : Catalog) (a : Annot)
    (doc : List Elem) (hnone : a.position = none) :
    processAnnot cat a doc =
      ⟨doc, [Diag.missingPosition a.type (a.selected_text.take 50)], []⟩ := by
  simp [processAnnot, hnone]

/-- An annotation whose type has no catalog entry is skipped silently. -/
theorem processAnnot_catalog_miss (cat : Catalog) (a : Annot)
    (doc : List Elem) (p : Position) (hpos : a.position = some p)
    (hcat : catLookup cat (convertClauseTypeToFrontendFormat a.type) = none) :
    processAnnot cat a doc = ⟨doc, [], []⟩ := by
  simp [processAnnot, hpos, hcat]

/-- A degenerate annotation changes nothing and emits nothing. -/
theorem processAnnot_degenerate (cat : Catalog) (a : Annot) (doc : List Elem)
    (p : Position) (hpos : a.position = some p) (hdeg : p.endPos ≤ p.start) :
    (processAnnot cat a doc).doc = doc ∧ (processAnnot cat a doc).emitted = [] := by
  rcases hcat : catLookup cat (convertClauseTypeToFrontendFormat a.type) with _ | ci
  · simp [processAnnot, hpos, hcat]
  · obtain ⟨h1, h2⟩ := runElems_degenerate a ci p.start p.endPos hdeg doc
    simp [processAnnot, hpos, hcat, h1, h2]

/-- Inserting an annotation that never changes the document and never
emits a highlight does not change the document or the highlights the
other annotations produce. -/
theorem applyAnnots_insert_noop (cat : Catalog) (a : Annot)
    (hdoc : ∀ doc, (processAnnot cat a doc).doc = doc)
    (hem : ∀ doc, (processAnnot cat a doc).emitted = [])
    (l1 l2 : List Annot) (doc : List Elem) :
    (applyAnnots cat (l1 ++ a :: l2) doc).doc =
        (applyAnnots cat (l1 ++ l2) doc).doc ∧
      (applyAnnots cat (l1 ++ a :: l2) doc).emitted =
        (applyAnnots cat (l1 ++ l2) doc).emitted := by
  induction l1 generalizing doc with
  | nil =>
      simp only [List.nil_append, applyAnnots]
      rw [hdoc doc, hem doc]
      simp
  | cons b bs ih =>
      simp only [List.cons_append, applyAnnots, List.append_eq]
      obtain ⟨i1, i2⟩ := ih (processAnnot cat b doc).doc
      rw [i1, i2]
      exact ⟨rfl, rfl⟩

/-- C6 counterexample: an annotation with `position.end ≤ position.start`
whose type is unknown to the catalog yields zero highlights but also
ZERO diagnostics - against the claim that such an annotation always
produces at least one diagnostic. -/
theorem C6_degenerate_no_diag_counterexample :
    aC6.position = some ⟨5, 3⟩ ∧ (3 : Nat) ≤ 5 ∧
      processAnnot catC6 aC6 docC6 = ⟨docC6, [], []⟩ := by
  refine ⟨rfl, by decide, by decide⟩

/-- C6 (amended): per-annotation failures are local.  An ill-formed
annotation (missing position, or `end ≤ start`) never changes the
document and never emits a highlight; a missing position logs exactly
its diagnostic; a degenerate range logs at least one diagnostic
provided its type resolves in the catalog (with a catalog miss it is
skipped silently); and removing the ill-formed annotation from the
processing sequence changes neither the final document nor the
highlights emitted for the remaining annotations. -/
theorem C6_illformed_isolation (cat : Catalog) (a : Annot)
    (hbad : a.position = none ∨ ∃ p, a.position = some p ∧ p.endPos ≤ p.start) :
    (∀ doc, (processAnnot cat a doc).doc = doc ∧
      (processAnnot cat a doc).emitted = []) ∧
    (∀ doc, a.position = none → (processAnnot cat a doc).diags =
      [Diag.missingPosition a.type (a.selected_text.take 50)]) ∧
    (∀ doc p ci, a.position = some p →
      catLookup cat (convertClauseTypeToFrontendFormat a.type) = some ci →
      (processAnnot cat a doc).diags ≠ []) ∧
    (∀ l1 l2 doc,
      (applyAnnots cat (l1 ++ a :: l2) doc).doc =
          (applyAnnots cat (l1 ++ l2) doc).doc ∧
        (applyAnnots cat (l1 ++ a :: l2) doc).emitted =
          (applyAnnots cat (l1 ++ l2) doc).emitted) := by
  have hno : ∀ doc, (processAnnot cat a doc).doc = doc ∧
      (processAnnot cat a doc).emitted = [] := by
    intro doc
    rcases hbad with hnone | ⟨p, hpos, hdeg⟩
    · rw [processAnnot_missing_position cat a doc hnone]
      exact ⟨rfl, rfl⟩
    · exact processAnnot_degenerate cat a doc p hpos hdeg
  refine ⟨hno, ?_, ?_, fun l1 l2 doc =>
    applyAnnots_insert_noop cat a (fun d => (hno d).1) (fun d => (hno d).2)
      l1 l2 doc⟩
  · intro doc hnone
    rw [processAnnot_missing_position cat a doc hnone]
  · intro doc p ci hpos hcat
    simp [processAnnot, hpos, hcat]

/-- C6 witness: the ill-formed-isolation facts at the degenerate
annotation `[7, 4)`. -/
theorem C6_illformed_isolation_witness :
    (aW6.position = none ∨ ∃ p, aW6.position = some p ∧ p.endPos ≤ p.start) ∧
      ((∀ doc, (processAnnot catC6 aW6 doc).doc = doc ∧
          (processAnnot catC6 aW6 doc).emitted = []) ∧
        (∀ doc, aW6.position = none → (processAnnot catC6 aW6 doc).diags =
          [Diag.missingPosition aW6.type (aW6.selected_text.take 50)]) ∧
        (∀ doc p ci, aW6.position = some p →
          catLookup catC6 (convertClauseTypeToFrontendFormat aW6.type) = some ci →
          (processAnnot catC6 aW6 doc).diags ≠ []) ∧
        (∀ l1 l2 doc,
          (applyAnnots catC6 (l1 ++ aW6 :: l2) doc).doc =
              (applyAnnots catC6 (l1 ++ l2) doc).doc ∧
            (applyAnnots catC6 (l1 ++ aW6 :: l2) doc).emitted =
              (applyAnnots catC6 (l1 ++ l2) doc).emitted)) :=
  ⟨Or.inr ⟨⟨7, 4⟩, rfl, by decide⟩,
    C6_illformed_isolation catC6 aW6 (Or.inr ⟨⟨7, 4⟩, rfl, by decide⟩)⟩

/-! ## C7 -/

/-- Fields every emitted highlight carries: the annotation's type as
`data-clause-type`, the derived identifier as `data-annotation-id`, the
user marker, and a `data-confidence` value exactly in the Contained case. -/
theorem stepElem_emitted_fields (a : Annot) (ci : ClauseInfo) (s e : Nat)
    (el : Elem) (h : Highlight)
    (hem : (stepElem a ci s e el).emitted = some h) :
    h.clauseType = a.type ∧ h.annotId = dataAnnotId a.type s ∧
      h.userClass = a.user ∧
      (h.confidence.isSome ↔
        classifyCode s e el.dataStart el.dataEnd = some Cls.contained) := by
  rcases hcc : classifyCode s e el.dataStart el.dataEnd with _ | cls
  · simp [stepElem, hcc] at hem
  · cases cls
    · simp only [stepElem, hcc] at hem
      split at hem
      next => exact absurd hem (by simp)
      next =>
        split at hem
        next => exact absurd hem (by simp)
        next =>
          rw [Option.some.injEq] at hem
          subst hem
          simp [mkHighlightContained, hcc]
    · simp only [stepElem, hcc] at hem
      split at hem
      next => exact absurd hem (by simp)
      next =>
        rw [Option.some.injEq] at hem
        subst hem
        simp [mkHighlightOverlap, hcc]
    · simp only [stepElem, hcc] at hem
      split at hem
      next => exact absurd hem (by simp)
      next =>
        rw [Option.some.injEq] at hem
        subst hem
        simp [mkHighlightOverlap, hcc]

/-- C7 counterexample: a user-authored Contained highlight DOES carry the
confidence attribute, and an AI-detected annotation split across two
nodes yields highlights carrying NO confidence attribute - against the
claim that a span carries confidence exactly when the annotation is
AI-detected. -/
theorem C7_confidence_attribute_counterexample :
    aC7.user = true ∧
      (processAnnot catC7 aC7 docC7).emitted = [(aC7, hC7)] ∧
      hC7.confidence.isSome = true ∧
      aC7b.user = false ∧
      (processAnnot catC6 aC7b docC7b).emitted.map
          (fun p => p.2.confidence) = [none, none] := by
  refine ⟨rfl, by decide, by decide, rfl, by decide⟩

/-- C7 (amended): every emitted highlight span carries the clause type
and the derived identifier, and it carries the confidence value exactly
when its intersection was classified Contained - for user-authored and
AI-detected annotations alike. -/
theorem C7_span_attributes (a : Annot) (ci : ClauseInfo) (s e : Nat)
    (el : Elem) (h : Highlight)
    (hem : (stepElem a ci s e el).emitted = some h) :
    h.clauseType = a.type ∧ h.annotId = dataAnnotId a.type s ∧
      h.userClass = a.user ∧
      (h.confidence.isSome ↔
        classifyCode s e el.dataStart el.dataEnd = some Cls.contained) :=
  stepElem_emitted_fields a ci s e el h hem

/-- C7 witness: the span-attribute facts at the concrete Contained
splice of the C4 witness. -/
theorem C7_span_attributes_witness :
    (stepElem aW4 ciW4 12 15 elW4).emitted = some hW4 ∧
      (hW4.clauseType = aW4.type ∧ hW4.annotId = dataAnnotId aW4.type 12 ∧
        hW4.userClass = aW4.user ∧
        (hW4.confidence.isSome ↔
          classifyCode 12 15 elW4.dataStart elW4.dataEnd = some Cls.contained)) :=
  ⟨by decide, C7_span_attributes aW4 ciW4 12 15 elW4 hW4 (by decide)⟩

/-! ## C9 -/

/-- Every highlight the element loop emits carries the annotation's type
and derived identifier. -/
theorem runElems_highlights_fields (a : Annot) (ci : ClauseInfo) (s e : Nat)
    (l : List Elem) (h : Highlight)
    (hm : h ∈ (runElems a ci s e l).highlights) :
    h.clauseType = a.type ∧ h.annotId = dataAnnotId a.type s := by
  induction l with
  | nil => simp [runElems] at hm
  | cons el rest ih =>
      simp only [runElems] at hm
      rw [List.mem_append] at hm
      rcases hm with hm | hm
      · rcases hopt : (stepElem a ci s e el).emitted with _ | h'
        · rw [hopt] at hm
          simp at hm
        · rw [hopt] at hm
          simp at hm
          subst hm
          obtain ⟨f1, f2, -, -⟩ := stepElem_emitted_fields a ci s e el h hopt
          exact ⟨f1, f2⟩
      · exact ih hm

/-- Every emitted pair of one annotation's pass names that annotation,
which must have a position, and its highlight carries the derived
identifier built from that position's start. -/
theorem processAnnot_emitted_fields (cat : Catalog) (a : Annot)
    (doc : List Elem) (x : Annot) (h : Highlight)
    (hm : (x, h) ∈ (processAnnot cat a doc).emitted) :
    x = a ∧ ∃ p, a.position = some p ∧ h.clauseType = a.type ∧
      h.annotId = dataAnnotId a.type p.start := by
  rcases hpos : a.position with _ | p
  · rw [processAnnot_missing_position cat a doc hpos] at hm
    simp at hm
  · rcases hcat : catLookup cat (convertClauseTypeToFrontendFormat a.type)
      with _ | ci
    · rw [processAnnot_catalog_miss cat a doc p hpos hcat] at hm
      simp at hm
    · simp only [processAnnot, hpos, hcat] at hm
      rw [List.mem_map] at hm
      obtain ⟨h', hh', heq⟩ := hm
      rw [Prod.mk.injEq] at heq
      obtain ⟨hx, hh⟩ := heq
      subst hx
      subst hh
      obtain ⟨f1, f2⟩ :=
        runElems_highlights_fields a ci p.start p.endPos doc h' hh'
      exact ⟨rfl, p, rfl, f1, f2⟩

/-- The click lookup returns exactly the annotation whose type and
derived identifier were clicked, provided no other listed annotation
shares both. -/
theorem resolveClick_first_unique (anns : List Annot) (a : Annot)
    (p : Position) (hpos : a.position = some p) (hmem : a ∈ anns)
    (huniq : ∀ b ∈ anns, b.type = a.type →
      optStartStr b.position = natToStr p.start → b = a) :
    resolveClick anns a.type (dataAnnotId a.type p.start) = some a := by
  induction anns with
  | nil => cases hmem
  | cons c rest ih =>
      unfold resolveClick
      split_ifs with hc
      · obtain ⟨hct, hcid⟩ := hc
        unfold dataAnnotId at hcid
        have hcons := List.append_cancel_left hcid
        have hos : optStartStr c.position = natToStr p.start := by
          injection hcons
        rw [huniq c (List.mem_cons_self c rest) hct hos]
      · have hac : a ≠ c := by
          intro he
          apply hc
          subst he
          refine ⟨rfl, ?_⟩
          rw [hpos]
          rfl
        have hmem' : a ∈ rest := by
          rcases List.mem_cons.mp hmem with he | hm
          · exact absurd he hac
          · exact hm
        exact ih hmem' (fun b hb => huniq b (List.mem_cons_of_mem c hb))

/-- C9 counterexample: two same-type annotations starting at offset 5
both render, their spans embed the same identifier, and resolving a
click on the second annotation's highlight returns the FIRST annotation
object, not the one that produced the highlight. -/
theorem C9_identifier_collision_counterexample :
    (applyAnnots catC6 [b1C9, b2C9] docC9).emitted.length = 2 ∧
      ((applyAnnots catC6 [b1C9, b2C9] docC9).emitted.getD 1 dfltPr).1 = b2C9 ∧
      resolveClick [b1C9, b2C9]
          ((applyAnnots catC6 [b1C9, b2C9] docC9).emitted.getD 1 dfltPr).2.clauseType
          ((applyAnnots catC6 [b1C9, b2C9] docC9).emitted.getD 1 dfltPr).2.annotId
        = some b1C9 ∧
      b1C9 ≠ b2C9 := by
  refine ⟨by decide, by decide, by decide, by decide⟩

/-- C9 (amended): for every highlight rendered for an annotation in the
lookup list, resolving a click with the span's embedded clause type and
identifier returns that exact annotation object, provided no other
annotation in the list shares both its type and its derived identifier. -/
theorem C9_click_resolution_roundtrip (cat : Catalog) (doc : List Elem)
    (anns : List Annot) (a : Annot) (h : Highlight)
    (hem : (a, h) ∈ (processAnnot cat a doc).emitted)
    (hmem : a ∈ anns)
    (huniq : ∀ b ∈ anns, b.type = a.type →
      optStartStr b.position = optStartStr a.position → b = a) :
    resolveClick anns h.clauseType h.annotId = some a := by
  obtain ⟨-, p, hpos, f1, f2⟩ := processAnnot_emitted_fields cat a doc a h hem
  rw [f1, f2]
  apply resolveClick_first_unique anns a p hpos hmem
  intro b hb hbt hbs
  apply huniq b hb hbt
  rw [hpos]
  exact hbs

/-- C9 witness: the click round trip at a singleton annotation list. -/
theorem C9_click_resolution_roundtrip_witness :
    (aW9, hW9) ∈ (processAnnot catC6 aW9 docC7).emitted ∧
      aW9 ∈ [aW9] ∧
      (∀ b ∈ [aW9], b.type = aW9.type →
        optStartStr b.position = optStartStr aW9.position → b = aW9) ∧
      resolveClick [aW9] hW9.clauseType hW9.annotId = some aW9 :=
  ⟨by decide, by decide, by decide,
    C9_click_resolution_roundtrip catC6 docC7 [aW9] aW9 hW9 (by decide)
      (by decide) (by decide)⟩

/-! ## C10 -/

/-- C10 counterexample: an annotation whose type has no catalog entry
but which also lacks a position IS logged (the missing-position check
runs first), against the claim that every catalog-miss annotation is
skipped with no diagnostic. -/
theorem C10_missing_position_logged_counterexample :
    catLookup catC6 (convertClauseTypeToFrontendFormat aC10.type) = none ∧
      (processAnnot catC6 aC10 docC6).diags =
        [Diag.missingPosition aC10.type (aC10.selected_text.take 50)] := by
  refine ⟨by decide, by decide⟩

/-- C10 (amended): an annotation that has a position but whose
frontend-format type has no catalog entry is skipped silently - no
highlight, no document change, no diagnostic - and removing it from the
processing sequence leaves the whole pass result (document, diagnostics
and emitted highlights) unchanged.  (Without a position, the
missing-position diagnostic is logged first.) -/
theorem C10_catalog_miss_silent_skip (cat : Catalog) (a : Annot)
    (p : Position) (hpos : a.position = some p)
    (hcat : catLookup cat (convertClauseTypeToFrontendFormat a.type) = none) :
    (∀ doc, processAnnot cat a doc = ⟨doc, [], []⟩) ∧
    (∀ l1 l2 doc,
      applyAnnots cat (l1 ++ a :: l2) doc = applyAnnots cat (l1 ++ l2) doc) := by
  have hall : ∀ doc, processAnnot cat a doc = ⟨doc, [], []⟩ :=
    fun doc => processAnnot_catalog_miss cat a doc p hpos hcat
  refine ⟨hall, ?_⟩
  intro l1 l2 doc
  induction l1 generalizing doc with
  | nil =>
      simp only [List.nil_append, applyAnnots, hall doc]
  | cons b bs ih =>
      simp only [List.cons_append, applyAnnots, List.append_eq]
      rw [ih]

/-- C10 witness: the silent-skip facts at the concrete annotation. -/
theorem C10_catalog_miss_silent_skip_witness :
    aW10.position = some ⟨1, 3⟩ ∧
      catLookup catC6 (convertClauseTypeToFrontendFormat aW10.type) = none ∧
      ((∀ doc, processAnnot catC6 aW10 doc = ⟨doc, [], []⟩) ∧
        (∀ l1 l2 doc, applyAnnots catC6 (l1 ++ aW10 :: l2) doc =
          applyAnnots catC6 (l1 ++ l2) doc)) :=
  ⟨rfl, by decide,
    C10_catalog_miss_silent_skip catC6 aW10 ⟨1, 3⟩ rfl (by decide)⟩

/-! ## C1 -/

/-- C1: the spec's non-corruption-under-overlap property fails on the
code.  For the overlapping annotations `[10, 30)` and `[20, 40)` in one
leaf node, the first splice nests a tooltip inside its highlight span;
the tooltip's text becomes part of the element's `textContent`, so the
second annotation's slice `[20, 40)` is taken over shifted text: its
highlight is NOT the document's `[20, 40)` substring (it ends with
tooltip text), and the pass's final document retains only one highlight
span - the first annotation's span was flattened into plain text by the
second splice. -/
theorem C1_overlap_corruption :
    resC1.emitted.length = 2 ∧
      (resC1.emitted.getD 1 dfltPr).1 = aBC1 ∧
      (resC1.emitted.getD 1 dfltPr).2.text ≠ (txtC1.drop 20).take 20 ∧
      (resC1.doc.getD 0 ⟨0, 0, [], []⟩).children.countP
          (fun c => match c with | Child.highlight _ => true | _ => false)
        = 1 := by
  refine ⟨by decide, by decide, by decide, by decide⟩
